import Mathlib

/-!
Shallow embedding of `src/video_metadata_injector.py` (Optimized Video
Metadata Injector, v2.0).

The filesystem, the external remux tool (ffmpeg) and the probe tool
(ffprobe) are modelled explicitly: the filesystem is a record of which
paths exist and their sizes, plus a log of `mkdir(parents=True)` calls;
the external tools are oracles passed as parameters.  Wall-clock
durations (Python floats) are modelled as rationals supplied by an
oracle keyed on the input file.  The pool scheduling of
`ThreadPoolExecutor` / `as_completed` is modelled by an arbitrary
completion order: a permutation of the submitted task indices, passed
as a parameter and constrained by a `List.Perm` hypothesis where a
claim needs it.
-/

namespace VideoMetadataInjector

/-- Mirror of the `VideoProcessingResult` dataclass (source lines 65 to 74). -/
structure VideoProcessingResult where
  input_file : String
  output_file : String
  success : Bool
  duration : Rat
  error_message : Option String
  file_size_before : Nat
  file_size_after : Nat
  deriving Repr, DecidableEq

/-- Mirror of the `ProcessingStats` dataclass (source lines 77 to 85);
all fields default to zero as in the source. -/
structure ProcessingStats where
  total_files : Nat := 0
  successful : Nat := 0
  failed : Nat := 0
  total_duration : Rat := 0
  total_size_before : Nat := 0
  total_size_after : Nat := 0
  deriving Repr, DecidableEq

/-- Model of the filesystem: which paths exist as files and with what
byte size, plus a log of the directory-creation calls issued by
`process_batch` (`output_path.parent.mkdir(parents=True, exist_ok=True)`). -/
structure FS where
  present : String → Bool
  size : String → Nat
  mkdirs : List String

/-- Outcome of one synchronous run of the external remux tool, as the
source observes it: `ok sz` is exit status 0 with the output file
present afterwards at size `sz`; `noOutput` is exit status 0 with the
output file absent afterwards; `exitNonzero c` is the nonzero exit
status that `subprocess.run(..., check=True)` turns into a
`CalledProcessError`. -/
inductive ToolOutcome where
  | ok (sz : Nat)
  | noOutput
  | exitNonzero (code : Nat)

/-! ## Pathlib model

`process_batch` derives output paths with `pathlib.Path` (source lines
299 to 310).  The functions below model POSIX `PurePath` semantics:
parsing drops empty and single-dot components, `name` is the last
component, `stem`/`suffix` split the name at its last dot when that dot
is neither first nor last, `parent` drops the last component, and `/`
appends the components of a relative right operand. -/

/-- Path components after pathlib parsing: split on slashes, dropping
empty components and single dots. -/
def psegments (p : String) : List String :=
  (p.splitOn "/").filter (fun s => !(s == "") && !(s == "."))

/-- Whether a path string is absolute. -/
def pIsAbs (p : String) : Bool :=
  p.startsWith "/"

/-- Render a parsed path back to the string `str(Path(...))` produces. -/
def pRender (abs : Bool) (segs : List String) : String :=
  match segs with
  | [] => if abs then "/" else "."
  | _ => (if abs then "/" else "") ++ String.intercalate "/" segs

/-- `str(Path(p))`: the normalized form of a path string. -/
def normP (p : String) : String :=
  pRender (pIsAbs p) (psegments p)

/-- `str(Path(d) / n)`: pathlib join; an absolute right operand replaces
the left operand entirely. -/
def pjoin (d n : String) : String :=
  if pIsAbs n then normP n
  else pRender (pIsAbs d) (psegments d ++ psegments n)

/-- `Path(p).name`: the final component, empty for the empty parse. -/
def pname (p : String) : String :=
  (psegments p).getLastD ""

/-- Split a filename into `(stem, suffix)` following pathlib: the split
happens at the last dot when its index is strictly between the first
and the last character of the name. -/
def stemSuffixOf (n : String) : String × String :=
  let cs := n.data
  match cs.reverse.findIdx? (fun c => c == '.') with
  | none => (n, "")
  | some j =>
    let i := cs.length - 1 - j
    if 0 < i && i < cs.length - 1 then
      (String.mk (cs.take i), String.mk (cs.drop i))
    else (n, "")

/-- `Path(p).stem`. -/
def pstem (p : String) : String :=
  (stemSuffixOf (pname p)).1

/-- `Path(p).suffix`. -/
def psuffix (p : String) : String :=
  (stemSuffixOf (pname p)).2

/-- `Path(p).parent`. -/
def pparent (p : String) : String :=
  match psegments p with
  | [] => normP p
  | segs => pRender (pIsAbs p) segs.dropLast

/-! ## Escaping and command construction (source lines 202 to 220) -/

/-- Replace every occurrence of the character `c` by the character list
`r`; this is exactly Python `str.replace` for a single-character
pattern. -/
def replaceChar (c : Char) (r : List Char) : List Char → List Char
  | [] => []
  | x :: xs => (if x = c then r else [x]) ++ replaceChar c r xs

/-- Source line 214: `value.replace('"', '\\"').replace('\n', '\\n')` —
first every double quote becomes backslash-quote, then every newline
becomes backslash-n. -/
def escapeValue (v : String) : String :=
  String.mk (replaceChar '\n' ['\\', 'n'] (replaceChar '"' ['\\', '"'] v.data))

/-- The argv list built for the remux tool (source lines 203 to 220):
the base flags, then the loop extending the list with one
`-metadata key=escaped-value` pair per map entry, then `-y` and the
output path. -/
def buildCmd (input output : String) (metadata : List (String × String)) : List String :=
  let cmd := ["ffmpeg", "-i", input, "-map_metadata", "0", "-c", "copy", "-threads", "0"]
  let cmd := metadata.foldl
    (fun c kv => c ++ ["-metadata", kv.1 ++ "=" ++ escapeValue kv.2]) cmd
  cmd ++ ["-y", output]

/-- Modelled from the spec (section 6, External tool A): the remux
command as the spec words it — input path, preserve-metadata flag,
copy-streams flag, all-threads flag, one `key=value` metadata argument
per map entry with the value pre-escaped, overwrite flag, output
path. -/
def specRemuxCmd (input output : String) (metadata : List (String × String)) : List String :=
  ["ffmpeg"] ++ ["-i", input] ++ ["-map_metadata", "0"] ++ ["-c", "copy"]
    ++ ["-threads", "0"]
    ++ (metadata.flatMap (fun kv => ["-metadata", kv.1 ++ "=" ++ escapeValue kv.2]))
    ++ ["-y"] ++ [output]

/-! ## The Job Runner (`_process_single_video`, source lines 170 to 265) -/

/-- Mirror of `_process_single_video`.  Returns the result record, the
filesystem after the call, and the list of remux commands actually
executed (empty exactly when the external tool was never invoked).
The source wraps the body in a try/except catching every exception:
a missing input raises `FileNotFoundError` before the command is
built; a nonzero exit raises `CalledProcessError`; a missing output
after a zero exit raises `RuntimeError`; each is caught and turned
into a failure result whose sizes keep their dataclass defaults of
zero.  The `CalledProcessError` message is modelled up to the literal
text of the command repr; the claims only inspect its nonemptiness. -/
def processSingleVideo (fs : FS) (exec : List String → ToolOutcome) (dur : String → Rat)
    (input output : String) (metadata : List (String × String)) :
    VideoProcessingResult × FS × List (List String) :=
  if fs.present input = true then
    let before := fs.size input
    let cmd := buildCmd input output metadata
    match exec cmd with
    | .ok sz =>
      ({ input_file := input, output_file := output, success := true,
         duration := dur input, error_message := none,
         file_size_before := before, file_size_after := sz },
       { fs with
           present := fun p => if p = output then true else fs.present p,
           size := fun p => if p = output then sz else fs.size p },
       [cmd])
    | .noOutput =>
      ({ input_file := input, output_file := output, success := false,
         duration := dur input,
         error_message := some "Fichier de sortie non créé",
         file_size_before := 0, file_size_after := 0 },
       fs, [cmd])
    | .exitNonzero code =>
      ({ input_file := input, output_file := output, success := false,
         duration := dur input,
         error_message := some ("Command returned non-zero exit status "
           ++ toString code ++ "."),
         file_size_before := 0, file_size_after := 0 },
       fs, [cmd])
  else
    ({ input_file := input, output_file := output, success := false,
       duration := dur input,
       error_message := some ("Fichier introuvable: " ++ input),
       file_size_before := 0, file_size_after := 0 },
     fs, [])

/-! ## Statistics aggregation and the Batch Coordinator
(`process_batch`, source lines 267 to 335) -/

/-- The statistics update performed as each future resolves (source
lines 325 to 333): increment the total, then on success increment the
success counter and add both sizes, otherwise increment the failure
counter, and finally add the duration unconditionally. -/
def updateStats (s : ProcessingStats) (r : VideoProcessingResult) : ProcessingStats :=
  let s1 := { s with total_files := s.total_files + 1 }
  let s2 :=
    if r.success then
      { s1 with successful := s1.successful + 1,
                total_size_before := s1.total_size_before + r.file_size_before,
                total_size_after := s1.total_size_after + r.file_size_after }
    else
      { s1 with failed := s1.failed + 1 }
  { s2 with total_duration := s2.total_duration + r.duration }

/-- Run the submitted jobs in the given (completion) order, threading
the filesystem, appending each result as it arrives and folding it
into the statistics — the `as_completed` collection loop linearized in
completion order. -/
def runJobs (exec : List String → ToolOutcome) (dur : String → Rat)
    (metadata : List (String × String)) :
    List (String × String) → FS → ProcessingStats →
    List VideoProcessingResult × FS × ProcessingStats
  | [], fs, s => ([], fs, s)
  | (i, o) :: rest, fs, s =>
    let step := processSingleVideo fs exec dur i o metadata
    let next := runJobs exec dur metadata rest step.2.1 (updateStats s step.1)
    (step.1 :: next.1, next.2)

/-- Output path derivation, exactly as the task-preparation loop writes
it (source lines 301 to 308): `Path(output_dir) / (stem + sfx + ext)`
when an output directory is given, else `input.parent / (stem + sfx + ext)`. -/
def derivedOutput (output_dir : Option String) (sfx : String) (input : String) : String :=
  match output_dir with
  | some d => pjoin d (pstem input ++ sfx ++ psuffix input)
  | none => pjoin (pparent input) (pstem input ++ sfx ++ psuffix input)

/-- Modelled from the spec (section 4.2, output path derivation): take
the filename stem and extension of the input; with an output directory
the output is `output_dir / (stem + suffix + extension)`, otherwise it
is `same_directory_as_input / (stem + suffix + extension)`. -/
def specOutputPath (output_dir : Option String) (sfx : String) (input : String) : String :=
  match output_dir with
  | some d => pjoin d (pstem input ++ sfx ++ psuffix input)
  | none => pjoin (pparent input) (pstem input ++ sfx ++ psuffix input)

/-- The task-preparation loop (source lines 300 to 310): build one
`(input, output)` pair per input file; when an output directory is
given, record the `mkdir(parents=True, exist_ok=True)` call issued on
the parent of the derived output path. -/
def prepTasks (output_dir : Option String) (sfx : String) :
    List String → FS → List (String × String) × FS
  | [], fs => ([], fs)
  | input :: rest, fs =>
    let out := derivedOutput output_dir sfx input
    let fs1 :=
      match output_dir with
      | some _ => { fs with mkdirs := fs.mkdirs ++ [pparent out] }
      | none => fs
    let next := prepTasks output_dir sfx rest fs1
    ((input, out) :: next.1, next.2)

/-- The completion order: `as_completed` yields the futures in an
arbitrary order, modelled as a list of task indices. -/
def orderTasks (perm : List Nat) (tasks : List (String × String)) : List (String × String) :=
  perm.map (fun i => tasks.getD i ("", ""))

/-- Mirror of `process_batch` (source lines 267 to 335): prepare the
tasks (deriving output paths and creating output directories), run one
job per task in the completion order `perm`, and return the collected
results together with the final filesystem and statistics.  The
statistics are threaded from the value held by the processor instance
before the call: the source never resets `self.stats`. -/
def process_batch (exec : List String → ToolOutcome) (dur : String → Rat)
    (video_files : List String) (metadata : List (String × String))
    (output_dir : Option String) (sfx : String) (perm : List Nat)
    (fs : FS) (stats : ProcessingStats) :
    List VideoProcessingResult × FS × ProcessingStats :=
  let prep := prepTasks output_dir sfx video_files fs
  runJobs exec dur metadata (orderTasks perm prep.1) prep.2 stats

/-! ## Metadata read-back (`read_metadata`, source lines 337 to 372) -/

/-- The parsed shape of the probe output that `read_metadata` inspects:
an optional format section holding an optional tags mapping. -/
structure ProbeFormat where
  tags : Option (List (String × String))

/-- Parsed probe output: the top-level JSON object with its optional
format section. -/
structure ProbeData where
  format : Option ProbeFormat

/-- One probe invocation as `read_metadata` observes it: either the
tool exited 0 and its stdout parsed as JSON (`ok`), or anything went
wrong — nonzero exit, JSON decode error, any other exception (`err`). -/
inductive ProbeOutcome where
  | ok (data : ProbeData)
  | err (msg : String)

/-- The format-level tags of a parsed probe output, when both the
format section and its tags field are present. -/
def probeTags (d : ProbeData) : Option (List (String × String)) :=
  d.format.bind (fun f => f.tags)

/-- Mirror of `read_metadata`: run the probe, and inside the catch-all
try/except return `data["format"]["tags"]` when both keys are present
and the empty map otherwise; every error path returns the empty map. -/
def read_metadata (probe : String → ProbeOutcome) (video_file : String) :
    List (String × String) :=
  match probe video_file with
  | .err _ => []
  | .ok data =>
    match data.format with
    | none => []
    | some f =>
      match f.tags with
      | none => []
      | some t => t

/-! ## Model of the remux tool metadata semantics -/

/-- Modelled from the spec (section 6, External tool A): a
`-metadata key=value` argument assigns the text after the first equals
sign, verbatim, to the tag named before it.  Split an argument at its
first equals sign. -/
def splitFirstEq (s : String) : String × String :=
  match s.data.findIdx? (fun c => c == '=') with
  | none => (s, "")
  | some i => (String.mk (s.data.take i), String.mk (s.data.drop (i + 1)))

/-- Modelled from the spec (section 6, External tool A): the tag
assignments an argv list carries — each argument following a
`-metadata` flag, split at its first equals sign. -/
def cmdTags : List String → List (String × String)
  | [] => []
  | [_] => []
  | a :: kv :: rest =>
    if a = "-metadata" then splitFirstEq kv :: cmdTags rest
    else cmdTags (kv :: rest)

/-- The value a command assigns to a given tag key, if any. -/
def cmdTagLookup (k : String) (cmd : List String) : Option String :=
  (cmdTags cmd).lookup k

/-! ## Concrete test fixtures -/

/-- A filesystem on which exactly `a.mp4` exists, with size 7. -/
def fsA : FS :=
  { present := fun p => p == "a.mp4", size := fun _ => 7, mkdirs := [] }

/-- A filesystem on which no file exists. -/
def fsEmpty : FS :=
  { present := fun _ => false, size := fun _ => 0, mkdirs := [] }

/-- A remux oracle on which every invocation succeeds producing a
5-byte output. -/
def execOk : List String → ToolOutcome := fun _ => .ok 5

/-- A remux oracle on which every invocation exits with status 1. -/
def execFail : List String → ToolOutcome := fun _ => .exitNonzero 1

/-- A duration oracle assigning every job duration 0. -/
def durZ : String → Rat := fun _ => 0

/-! ## Helper lemmas -/

theorem data_append_ne_nil (a b : String) (ha : a.data ≠ []) : (a ++ b).data ≠ [] := by
  rw [String.data_append]
  intro h
  exact ha (List.append_eq_nil.mp h).1

theorem append_left_ne_empty (a b : String) (ha : a.data ≠ []) : a ++ b ≠ "" := by
  intro h
  exact data_append_ne_nil a b ha (congrArg String.data h)

theorem processSingleVideo_input_file (fs : FS) (exec : List String → ToolOutcome)
    (dur : String → Rat) (input output : String) (metadata : List (String × String)) :
    (processSingleVideo fs exec dur input output metadata).1.input_file = input := by
  simp only [processSingleVideo]
  split
  · split <;> rfl
  · rfl

theorem processSingleVideo_output_file (fs : FS) (exec : List String → ToolOutcome)
    (dur : String → Rat) (input output : String) (metadata : List (String × String)) :
    (processSingleVideo fs exec dur input output metadata).1.output_file = output := by
  simp only [processSingleVideo]
  split
  · split <;> rfl
  · rfl

theorem processSingleVideo_duration (fs : FS) (exec : List String → ToolOutcome)
    (dur : String → Rat) (input output : String) (metadata : List (String × String)) :
    (processSingleVideo fs exec dur input output metadata).1.duration = dur input := by
  simp only [processSingleVideo]
  split
  · split <;> rfl
  · rfl

theorem updateStats_total_files (s : ProcessingStats) (r : VideoProcessingResult) :
    (updateStats s r).total_files = s.total_files + 1 := by
  simp only [updateStats]
  split <;> rfl

theorem updateStats_successful (s : ProcessingStats) (r : VideoProcessingResult) :
    (updateStats s r).successful = s.successful + (if r.success then 1 else 0) := by
  simp only [updateStats]
  split <;> simp_all

theorem updateStats_failed (s : ProcessingStats) (r : VideoProcessingResult) :
    (updateStats s r).failed = s.failed + (if r.success then 0 else 1) := by
  simp only [updateStats]
  split <;> simp_all

theorem updateStats_size_before (s : ProcessingStats) (r : VideoProcessingResult) :
    (updateStats s r).total_size_before
      = s.total_size_before + (if r.success then r.file_size_before else 0) := by
  simp only [updateStats]
  split <;> simp_all

theorem updateStats_size_after (s : ProcessingStats) (r : VideoProcessingResult) :
    (updateStats s r).total_size_after
      = s.total_size_after + (if r.success then r.file_size_after else 0) := by
  simp only [updateStats]
  split <;> simp_all

theorem updateStats_duration (s : ProcessingStats) (r : VideoProcessingResult) :
    (updateStats s r).total_duration = s.total_duration + r.duration := by
  simp only [updateStats]
  split <;> rfl

theorem runJobs_map_input (exec : List String → ToolOutcome) (dur : String → Rat)
    (metadata : List (String × String)) :
    ∀ (jobs : List (String × String)) (fs : FS) (s : ProcessingStats),
      ((runJobs exec dur metadata jobs fs s).1).map (fun r => r.input_file)
        = jobs.map (fun j => j.1) := by
  intro jobs
  induction jobs with
  | nil => intro fs s; rfl
  | cons j rest ih =>
    intro fs s
    obtain ⟨i, o⟩ := j
    simp only [runJobs, List.map_cons]
    rw [processSingleVideo_input_file, ih]

theorem runJobs_length (exec : List String → ToolOutcome) (dur : String → Rat)
    (metadata : List (String × String)) (jobs : List (String × String))
    (fs : FS) (s : ProcessingStats) :
    ((runJobs exec dur metadata jobs fs s).1).length = jobs.length := by
  have h := runJobs_map_input exec dur metadata jobs fs s
  have h2 := congrArg List.length h
  simpa using h2

theorem runJobs_map_duration (exec : List String → ToolOutcome) (dur : String → Rat)
    (metadata : List (String × String)) :
    ∀ (jobs : List (String × String)) (fs : FS) (s : ProcessingStats),
      ((runJobs exec dur metadata jobs fs s).1).map (fun r => r.duration)
        = jobs.map (fun j => dur j.1) := by
  intro jobs
  induction jobs with
  | nil => intro fs s; rfl
  | cons j rest ih =>
    intro fs s
    obtain ⟨i, o⟩ := j
    simp only [runJobs, List.map_cons]
    rw [processSingleVideo_duration, ih]

theorem runJobs_stats_eq (exec : List String → ToolOutcome) (dur : String → Rat)
    (metadata : List (String × String)) :
    ∀ (jobs : List (String × String)) (fs : FS) (s : ProcessingStats),
      (runJobs exec dur metadata jobs fs s).2.2
        = ((runJobs exec dur metadata jobs fs s).1).foldl updateStats s := by
  intro jobs
  induction jobs with
  | nil => intro fs s; rfl
  | cons j rest ih =>
    intro fs s
    obtain ⟨i, o⟩ := j
    simp only [runJobs, List.foldl_cons]
    exact ih _ _

theorem foldl_updateStats_total_files (rs : List VideoProcessingResult) :
    ∀ s : ProcessingStats,
      (rs.foldl updateStats s).total_files = s.total_files + rs.length := by
  induction rs with
  | nil => intro s; simp
  | cons r rest ih =>
    intro s
    rw [List.foldl_cons, ih, updateStats_total_files, List.length_cons]
    omega

theorem foldl_updateStats_successful (rs : List VideoProcessingResult) :
    ∀ s : ProcessingStats,
      (rs.foldl updateStats s).successful
        = s.successful + (rs.filter (fun r => r.success)).length := by
  induction rs with
  | nil => intro s; simp
  | cons r rest ih =>
    intro s
    rw [List.foldl_cons, ih, updateStats_successful, List.filter_cons]
    cases hr : r.success <;> (simp [hr]; try omega)

theorem foldl_updateStats_failed (rs : List VideoProcessingResult) :
    ∀ s : ProcessingStats,
      (rs.foldl updateStats s).failed
        = s.failed + (rs.filter (fun r => !r.success)).length := by
  induction rs with
  | nil => intro s; simp
  | cons r rest ih =>
    intro s
    rw [List.foldl_cons, ih, updateStats_failed, List.filter_cons]
    cases hr : r.success <;> (simp [hr]; try omega)

theorem foldl_updateStats_size_before (rs : List VideoProcessingResult) :
    ∀ s : ProcessingStats,
      (rs.foldl updateStats s).total_size_before
        = s.total_size_before
          + ((rs.filter (fun r => r.success)).map (fun r => r.file_size_before)).sum := by
  induction rs with
  | nil => intro s; simp
  | cons r rest ih =>
    intro s
    rw [List.foldl_cons, ih, updateStats_size_before, List.filter_cons]
    cases hr : r.success <;> (simp [hr]; try omega)

theorem foldl_updateStats_size_after (rs : List VideoProcessingResult) :
    ∀ s : ProcessingStats,
      (rs.foldl updateStats s).total_size_after
        = s.total_size_after
          + ((rs.filter (fun r => r.success)).map (fun r => r.file_size_after)).sum := by
  induction rs with
  | nil => intro s; simp
  | cons r rest ih =>
    intro s
    rw [List.foldl_cons, ih, updateStats_size_after, List.filter_cons]
    cases hr : r.success <;> (simp [hr]; try omega)

theorem foldl_updateStats_duration (rs : List VideoProcessingResult) :
    ∀ s : ProcessingStats,
      (rs.foldl updateStats s).total_duration
        = s.total_duration + (rs.map (fun r => r.duration)).sum := by
  induction rs with
  | nil => intro s; simp
  | cons r rest ih =>
    intro s
    rw [List.foldl_cons, ih, updateStats_duration, List.map_cons, List.sum_cons]
    ring

theorem length_filter_add_length_filter_not (rs : List VideoProcessingResult) :
    (rs.filter (fun r => r.success)).length + (rs.filter (fun r => !r.success)).length
      = rs.length := by
  induction rs with
  | nil => simp
  | cons r rest ih =>
    rw [List.filter_cons, List.filter_cons]
    cases hr : r.success <;> (simp [hr]; try omega)

theorem map_getD_range {α : Type} (l : List α) (d : α) :
    (List.range l.length).map (fun i => l.getD i d) = l := by
  induction l with
  | nil => simp
  | cons a t ih =>
    rw [List.length_cons, List.range_succ_eq_map, List.map_cons, List.map_map]
    have h : ((fun i => (a :: t).getD i d) ∘ Nat.succ) = fun i => t.getD i d := by
      funext i
      simp [List.getD_cons_succ]
    rw [h, ih]
    simp

theorem orderTasks_perm (tasks : List (String × String)) (perm : List Nat)
    (h : perm.Perm (List.range tasks.length)) :
    (orderTasks perm tasks).Perm tasks := by
  have h2 := h.map (fun i => tasks.getD i ("", ""))
  rw [map_getD_range] at h2
  exact h2

theorem orderTasks_length (tasks : List (String × String)) (perm : List Nat)
    (h : perm.Perm (List.range tasks.length)) :
    (orderTasks perm tasks).length = tasks.length := by
  simpa [orderTasks] using h.length_eq

theorem prepTasks_fst (output_dir : Option String) (sfx : String) :
    ∀ (inputs : List String) (fs : FS),
      (prepTasks output_dir sfx inputs fs).1
        = inputs.map (fun i => (i, derivedOutput output_dir sfx i)) := by
  intro inputs
  induction inputs with
  | nil => intro fs; rfl
  | cons i rest ih =>
    intro fs
    simp only [prepTasks, List.map_cons]
    rw [ih]

theorem prepTasks_mkdirs_mono (output_dir : Option String) (sfx : String) :
    ∀ (inputs : List String) (fs : FS) (x : String),
      x ∈ fs.mkdirs → x ∈ (prepTasks output_dir sfx inputs fs).2.mkdirs := by
  intro inputs
  induction inputs with
  | nil => intro fs x hx; exact hx
  | cons i rest ih =>
    intro fs x hx
    simp only [prepTasks]
    cases output_dir with
    | none => exact ih _ _ hx
    | some d =>
      apply ih
      simp only [List.mem_append]
      exact Or.inl hx

theorem prepTasks_mkdirs_mem (d : String) (sfx : String) :
    ∀ (inputs : List String) (fs : FS) (i : String), i ∈ inputs →
      pparent (derivedOutput (some d) sfx i)
        ∈ (prepTasks (some d) sfx inputs fs).2.mkdirs := by
  intro inputs
  induction inputs with
  | nil => intro fs i hi; cases hi
  | cons a rest ih =>
    intro fs i hi
    rcases List.mem_cons.mp hi with h | h
    · subst h
      simp only [prepTasks]
      apply prepTasks_mkdirs_mono
      simp
    · exact ih _ _ h

theorem derivedOutput_eq_spec (output_dir : Option String) (sfx : String) (i : String) :
    derivedOutput output_dir sfx i = specOutputPath output_dir sfx i := by
  cases output_dir <;> rfl

theorem process_batch_length (exec : List String → ToolOutcome) (dur : String → Rat)
    (video_files : List String) (metadata : List (String × String))
    (output_dir : Option String) (sfx : String) (perm : List Nat)
    (fs : FS) (stats : ProcessingStats)
    (hperm : perm.Perm (List.range video_files.length)) :
    ((process_batch exec dur video_files metadata output_dir sfx perm fs stats).1).length
      = video_files.length := by
  have htasks := prepTasks_fst output_dir sfx video_files fs
  have hlen : (prepTasks output_dir sfx video_files fs).1.length = video_files.length := by
    rw [htasks, List.length_map]
  simp only [process_batch]
  rw [runJobs_length, orderTasks_length]
  · exact hlen
  · rw [hlen]; exact hperm

theorem process_batch_inputs_perm (exec : List String → ToolOutcome) (dur : String → Rat)
    (video_files : List String) (metadata : List (String × String))
    (output_dir : Option String) (sfx : String) (perm : List Nat)
    (fs : FS) (stats : ProcessingStats)
    (hperm : perm.Perm (List.range video_files.length)) :
    (((process_batch exec dur video_files metadata output_dir sfx perm fs stats).1).map
        (fun r => r.input_file)).Perm video_files := by
  have htasks := prepTasks_fst output_dir sfx video_files fs
  have hlen : (prepTasks output_dir sfx video_files fs).1.length = video_files.length := by
    rw [htasks, List.length_map]
  simp only [process_batch]
  rw [runJobs_map_input]
  have hp : (orderTasks perm (prepTasks output_dir sfx video_files fs).1).Perm
      (prepTasks output_dir sfx video_files fs).1 := by
    apply orderTasks_perm
    rw [hlen]; exact hperm
  have hp2 := hp.map (fun j => j.1)
  have : ((prepTasks output_dir sfx video_files fs).1.map (fun j => j.1)) = video_files := by
    rw [htasks, List.map_map]
    simp [Function.comp_def]
  rwa [this] at hp2

theorem foldl_append_flatMap (f : (String × String) → List String) :
    ∀ (l : List (String × String)) (base : List String),
      l.foldl (fun c kv => c ++ f kv) base = base ++ l.flatMap f := by
  intro l
  induction l with
  | nil => intro base; simp
  | cons a t ih =>
    intro base
    rw [List.foldl_cons, ih, List.flatMap_cons, List.append_assoc]

/-- The six statistics equations one `process_batch` call establishes,
relative to the statistics held before the call. -/
theorem process_batch_stats (exec : List String → ToolOutcome) (dur : String → Rat)
    (video_files : List String) (metadata : List (String × String))
    (output_dir : Option String) (sfx : String) (perm : List Nat)
    (fs : FS) (s : ProcessingStats)
    (hperm : perm.Perm (List.range video_files.length)) :
    (process_batch exec dur video_files metadata output_dir sfx perm fs s).2.2.total_files
        = s.total_files + video_files.length ∧
    (process_batch exec dur video_files metadata output_dir sfx perm fs s).2.2.successful
        = s.successful
          + (((process_batch exec dur video_files metadata output_dir sfx perm fs s).1).filter
              (fun r => r.success)).length ∧
    (process_batch exec dur video_files metadata output_dir sfx perm fs s).2.2.failed
        = s.failed
          + (((process_batch exec dur video_files metadata output_dir sfx perm fs s).1).filter
              (fun r => !r.success)).length ∧
    (process_batch exec dur video_files metadata output_dir sfx perm fs s).2.2.total_size_before
        = s.total_size_before
          + ((((process_batch exec dur video_files metadata output_dir sfx perm fs s).1).filter
              (fun r => r.success)).map (fun r => r.file_size_before)).sum ∧
    (process_batch exec dur video_files metadata output_dir sfx perm fs s).2.2.total_size_after
        = s.total_size_after
          + ((((process_batch exec dur video_files metadata output_dir sfx perm fs s).1).filter
              (fun r => r.success)).map (fun r => r.file_size_after)).sum ∧
    (process_batch exec dur video_files metadata output_dir sfx perm fs s).2.2.total_duration
        = s.total_duration
          + (((process_batch exec dur video_files metadata output_dir sfx perm fs s).1).map
              (fun r => r.duration)).sum := by
  have hlen := process_batch_length exec dur video_files metadata output_dir sfx perm fs s hperm
  simp only [process_batch] at hlen ⊢
  rw [runJobs_stats_eq]
  refine ⟨?_, ?_, ?_, ?_, ?_, ?_⟩
  · rw [foldl_updateStats_total_files, hlen]
  · rw [foldl_updateStats_successful]
  · rw [foldl_updateStats_failed]
  · rw [foldl_updateStats_size_before]
  · rw [foldl_updateStats_size_after]
  · rw [foldl_updateStats_duration]

/-- The durations carried by the results of one `process_batch` call
are exactly the duration-oracle values of the scheduled inputs. -/
theorem process_batch_durations (exec : List String → ToolOutcome) (dur : String → Rat)
    (video_files : List String) (metadata : List (String × String))
    (output_dir : Option String) (sfx : String) (perm : List Nat)
    (fs : FS) (s : ProcessingStats) :
    ((process_batch exec dur video_files metadata output_dir sfx perm fs s).1).map
        (fun r => r.duration)
      = (orderTasks perm (prepTasks output_dir sfx video_files fs).1).map
          (fun j => dur j.1) := by
  simp only [process_batch]
  rw [runJobs_map_duration]

/-- The arguments of one `process_batch` call, for iterating calls on
the same processor instance. -/
structure BatchCall where
  inputs : List String
  md : List (String × String)
  outdir : Option String
  sfx : String
  perm : List Nat

/-- Successive `process_batch` calls on one processor instance: the
statistics member is threaded from call to call and never reset
(`self.stats` is created once in `__init__`, source line 114). -/
def runBatches (exec : List String → ToolOutcome) (dur : String → Rat) :
    List BatchCall → FS → ProcessingStats → FS × ProcessingStats
  | [], fs, s => (fs, s)
  | b :: rest, fs, s =>
    let out := process_batch exec dur b.inputs b.md b.outdir b.sfx b.perm fs s
    runBatches exec dur rest out.2.1 out.2.2

/-- One `process_batch` call never decreases any statistics field. -/
theorem process_batch_stats_mono (exec : List String → ToolOutcome) (dur : String → Rat)
    (video_files : List String) (metadata : List (String × String))
    (output_dir : Option String) (sfx : String) (perm : List Nat)
    (fs : FS) (s : ProcessingStats)
    (hperm : perm.Perm (List.range video_files.length))
    (hdur : ∀ f, 0 ≤ dur f) :
    s.total_files
        ≤ (process_batch exec dur video_files metadata output_dir sfx perm fs s).2.2.total_files ∧
    s.successful
        ≤ (process_batch exec dur video_files metadata output_dir sfx perm fs s).2.2.successful ∧
    s.failed
        ≤ (process_batch exec dur video_files metadata output_dir sfx perm fs s).2.2.failed ∧
    s.total_size_before
        ≤ (process_batch exec dur video_files metadata output_dir sfx perm fs
            s).2.2.total_size_before ∧
    s.total_size_after
        ≤ (process_batch exec dur video_files metadata output_dir sfx perm fs
            s).2.2.total_size_after ∧
    s.total_duration
        ≤ (process_batch exec dur video_files metadata output_dir sfx perm fs
            s).2.2.total_duration := by
  obtain ⟨h1, h2, h3, h4, h5, h6⟩ :=
    process_batch_stats exec dur video_files metadata output_dir sfx perm fs s hperm
  refine ⟨by omega, by omega, by omega, by omega, by omega, ?_⟩
  rw [h6]
  have hsum : 0 ≤ (((process_batch exec dur video_files metadata output_dir sfx perm fs
      s).1).map (fun r => r.duration)).sum := by
    apply List.sum_nonneg
    intro x hx
    rw [process_batch_durations] at hx
    obtain ⟨j, _, hj⟩ := List.mem_map.mp hx
    rw [← hj]
    exact hdur j.1
  linarith

/-! ## Claim theorems -/

/-- C1: for every non-empty list of input paths and non-empty metadata
map, `process_batch` returns exactly one `ProcessingResult` per
submitted input path — exactly `len(input_list)` results, in 1:1
correspondence with the inputs (as multisets: no duplicates, no
omissions), regardless of which jobs fail (the remux oracle, the
completion order and the filesystem are arbitrary). -/
theorem c1_one_result_per_input (exec : List String → ToolOutcome) (dur : String → Rat)
    (video_files : List String) (metadata : List (String × String))
    (output_dir : Option String) (sfx : String) (perm : List Nat)
    (fs : FS) (stats : ProcessingStats)
    (_hne : video_files ≠ []) (_hmeta : metadata ≠ [])
    (hperm : perm.Perm (List.range video_files.length)) :
    ((process_batch exec dur video_files metadata output_dir sfx perm fs stats).1).length
        = video_files.length ∧
    (((process_batch exec dur video_files metadata output_dir sfx perm fs stats).1).map
        (fun r => r.input_file)).Perm video_files :=
  ⟨process_batch_length exec dur video_files metadata output_dir sfx perm fs stats hperm,
   process_batch_inputs_perm exec dur video_files metadata output_dir sfx perm fs stats hperm⟩

/-- Witness for C1 at a concrete batch: one missing input file, a
failing remux oracle, identity completion order. -/
theorem c1_witness :
    ((process_batch execFail durZ ["a.mp4"] [("title", "T")] none "_metadata" [0]
        fsEmpty {}).1).length = 1 ∧
    (((process_batch execFail durZ ["a.mp4"] [("title", "T")] none "_metadata" [0]
        fsEmpty {}).1).map (fun r => r.input_file)).Perm ["a.mp4"] :=
  c1_one_result_per_input execFail durZ ["a.mp4"] [("title", "T")] none "_metadata" [0]
    fsEmpty {} (by decide) (by decide) (by decide)

/-- C2: starting from the freshly initialized statistics, after one
`process_batch` call over N inputs the statistics satisfy
`successful + failed = total_files = N`; the before/after size totals
are the sums of the respective sizes over only the successful results;
and the duration total is the sum of the per-job durations over all N
results, success or failure. -/
theorem c2_batch_statistics (exec : List String → ToolOutcome) (dur : String → Rat)
    (video_files : List String) (metadata : List (String × String))
    (output_dir : Option String) (sfx : String) (perm : List Nat) (fs : FS)
    (hperm : perm.Perm (List.range video_files.length)) :
    (process_batch exec dur video_files metadata output_dir sfx perm fs {}).2.2.successful
        + (process_batch exec dur video_files metadata output_dir sfx perm fs {}).2.2.failed
      = (process_batch exec dur video_files metadata output_dir sfx perm fs
          {}).2.2.total_files ∧
    (process_batch exec dur video_files metadata output_dir sfx perm fs {}).2.2.total_files
      = video_files.length ∧
    (process_batch exec dur video_files metadata output_dir sfx perm fs {}).2.2.total_size_before
      = ((((process_batch exec dur video_files metadata output_dir sfx perm fs {}).1).filter
          (fun r => r.success)).map (fun r => r.file_size_before)).sum ∧
    (process_batch exec dur video_files metadata output_dir sfx perm fs {}).2.2.total_size_after
      = ((((process_batch exec dur video_files metadata output_dir sfx perm fs {}).1).filter
          (fun r => r.success)).map (fun r => r.file_size_after)).sum ∧
    (process_batch exec dur video_files metadata output_dir sfx perm fs {}).2.2.total_duration
      = (((process_batch exec dur video_files metadata output_dir sfx perm fs {}).1).map
          (fun r => r.duration)).sum := by
  obtain ⟨h1, h2, h3, h4, h5, h6⟩ :=
    process_batch_stats exec dur video_files metadata output_dir sfx perm fs {} hperm
  have hlen := process_batch_length exec dur video_files metadata output_dir sfx perm fs {} hperm
  have hpart := length_filter_add_length_filter_not
    (process_batch exec dur video_files metadata output_dir sfx perm fs {}).1
  have e1 : ({} : ProcessingStats).successful = 0 := rfl
  have e2 : ({} : ProcessingStats).failed = 0 := rfl
  have e3 : ({} : ProcessingStats).total_files = 0 := rfl
  have e4 : ({} : ProcessingStats).total_size_before = 0 := rfl
  have e5 : ({} : ProcessingStats).total_size_after = 0 := rfl
  have e6 : ({} : ProcessingStats).total_duration = 0 := rfl
  refine ⟨?_, ?_, ?_, ?_, ?_⟩
  · rw [h2, h3, h1, e1, e2, e3]
    omega
  · rw [h1, e3, Nat.zero_add]
  · rw [h4, e4, Nat.zero_add]
  · rw [h5, e5, Nat.zero_add]
  · rw [h6, e6, zero_add]

/-- Witness for C2 at a concrete batch of two inputs, one of which
exists, under an always-succeeding remux oracle. -/
theorem c2_witness :
    (process_batch execOk durZ ["a.mp4", "b.mp4"] [("title", "T")] none "_m" [1, 0]
        fsA {}).2.2.successful
      + (process_batch execOk durZ ["a.mp4", "b.mp4"] [("title", "T")] none "_m" [1, 0]
          fsA {}).2.2.failed
      = (process_batch execOk durZ ["a.mp4", "b.mp4"] [("title", "T")] none "_m" [1, 0]
          fsA {}).2.2.total_files ∧
    (process_batch execOk durZ ["a.mp4", "b.mp4"] [("title", "T")] none "_m" [1, 0]
        fsA {}).2.2.total_files = 2 ∧
    (process_batch execOk durZ ["a.mp4", "b.mp4"] [("title", "T")] none "_m" [1, 0]
        fsA {}).2.2.total_size_before
      = ((((process_batch execOk durZ ["a.mp4", "b.mp4"] [("title", "T")] none "_m" [1, 0]
          fsA {}).1).filter (fun r => r.success)).map (fun r => r.file_size_before)).sum ∧
    (process_batch execOk durZ ["a.mp4", "b.mp4"] [("title", "T")] none "_m" [1, 0]
        fsA {}).2.2.total_size_after
      = ((((process_batch execOk durZ ["a.mp4", "b.mp4"] [("title", "T")] none "_m" [1, 0]
          fsA {}).1).filter (fun r => r.success)).map (fun r => r.file_size_after)).sum ∧
    (process_batch execOk durZ ["a.mp4", "b.mp4"] [("title", "T")] none "_m" [1, 0]
        fsA {}).2.2.total_duration
      = (((process_batch execOk durZ ["a.mp4", "b.mp4"] [("title", "T")] none "_m" [1, 0]
          fsA {}).1).map (fun r => r.duration)).sum :=
  c2_batch_statistics execOk durZ ["a.mp4", "b.mp4"] [("title", "T")] none "_m" [1, 0]
    fsA (by decide)

/-- C3: when the input path does not exist at call time, the single-file
run fails fast — the result has `success = false` and the non-empty
file-not-found error message, the external remux tool is never invoked
(the executed-command log is empty), and the filesystem is unchanged,
so no output file is created. -/
theorem c3_missing_input_fails_fast (fs : FS) (exec : List String → ToolOutcome)
    (dur : String → Rat) (input output : String) (metadata : List (String × String))
    (h : fs.present input = false) :
    (processSingleVideo fs exec dur input output metadata).1.success = false ∧
    (processSingleVideo fs exec dur input output metadata).1.error_message
        = some ("Fichier introuvable: " ++ input) ∧
    ("Fichier introuvable: " ++ input) ≠ "" ∧
    (processSingleVideo fs exec dur input output metadata).2.2 = [] ∧
    (processSingleVideo fs exec dur input output metadata).2.1 = fs := by
  simp only [processSingleVideo, h]
  exact ⟨rfl, rfl, append_left_ne_empty _ _ (by decide), rfl, rfl⟩

/-- Witness for C3 on the empty filesystem. -/
theorem c3_witness :
    (processSingleVideo fsEmpty execOk durZ "x.mp4" "y.mp4" []).1.success = false ∧
    (processSingleVideo fsEmpty execOk durZ "x.mp4" "y.mp4" []).1.error_message
        = some ("Fichier introuvable: " ++ "x.mp4") ∧
    ("Fichier introuvable: " ++ "x.mp4") ≠ "" ∧
    (processSingleVideo fsEmpty execOk durZ "x.mp4" "y.mp4" []).2.2 = [] ∧
    (processSingleVideo fsEmpty execOk durZ "x.mp4" "y.mp4" []).2.1 = fsEmpty :=
  c3_missing_input_fails_fast fsEmpty execOk durZ "x.mp4" "y.mp4" [] (by decide)

/-- C4: every result of a Job Runner invocation satisfies the
invariant — on success the output file exists on the post-call
filesystem and `file_size_after` equals its actual size there; on
failure the error message is present and non-empty and both size
fields are zero. -/
theorem c4_result_invariant (fs : FS) (exec : List String → ToolOutcome)
    (dur : String → Rat) (input output : String) (metadata : List (String × String)) :
    ((processSingleVideo fs exec dur input output metadata).1.success = true →
      (processSingleVideo fs exec dur input output metadata).2.1.present
          ((processSingleVideo fs exec dur input output metadata).1.output_file) = true ∧
      (processSingleVideo fs exec dur input output metadata).1.file_size_after
        = (processSingleVideo fs exec dur input output metadata).2.1.size
            ((processSingleVideo fs exec dur input output metadata).1.output_file)) ∧
    ((processSingleVideo fs exec dur input output metadata).1.success = false →
      (∃ m, (processSingleVideo fs exec dur input output metadata).1.error_message = some m
          ∧ m ≠ "") ∧
      (processSingleVideo fs exec dur input output metadata).1.file_size_before = 0 ∧
      (processSingleVideo fs exec dur input output metadata).1.file_size_after = 0) := by
  simp only [processSingleVideo]
  split
  · split
    · refine ⟨fun _ => ⟨by simp, by simp⟩, fun h => by simp at h⟩
    · refine ⟨fun h => by simp at h, fun _ => ⟨⟨_, rfl, by decide⟩, rfl, rfl⟩⟩
    · refine ⟨fun h => by simp at h, fun _ =>
        ⟨⟨_, rfl, append_left_ne_empty _ _ (data_append_ne_nil _ _ (by decide))⟩, rfl, rfl⟩⟩
  · refine ⟨fun h => by simp at h, fun _ =>
      ⟨⟨_, rfl, append_left_ne_empty _ _ (by decide)⟩, rfl, rfl⟩⟩

/-- Witness for C4: the success half on a filesystem where the input
exists with a succeeding remux oracle, and the failure half on the
empty filesystem. -/
theorem c4_witness :
    ((processSingleVideo fsA execOk durZ "a.mp4" "o.mp4" []).2.1.present
        ((processSingleVideo fsA execOk durZ "a.mp4" "o.mp4" []).1.output_file) = true ∧
      (processSingleVideo fsA execOk durZ "a.mp4" "o.mp4" []).1.file_size_after
        = (processSingleVideo fsA execOk durZ "a.mp4" "o.mp4" []).2.1.size
            ((processSingleVideo fsA execOk durZ "a.mp4" "o.mp4" []).1.output_file)) ∧
    ((∃ m, (processSingleVideo fsEmpty execOk durZ "a.mp4" "o.mp4" []).1.error_message
          = some m ∧ m ≠ "") ∧
      (processSingleVideo fsEmpty execOk durZ "a.mp4" "o.mp4" []).1.file_size_before = 0 ∧
      (processSingleVideo fsEmpty execOk durZ "a.mp4" "o.mp4" []).1.file_size_after = 0) :=
  ⟨(c4_result_invariant fsA execOk durZ "a.mp4" "o.mp4" []).1 (by decide),
   (c4_result_invariant fsEmpty execOk durZ "a.mp4" "o.mp4" []).2 (by decide)⟩

/-- A concrete single-call batch for exercising `runBatches`. -/
def batch1 : BatchCall :=
  ⟨["a.mp4"], [("t", "v")], none, "_m", [0]⟩

/-- A probe oracle always returning a parsed output with a title tag. -/
def probeOkTitle : String → ProbeOutcome :=
  fun _ => .ok ⟨some ⟨some [("title", "T")]⟩⟩

/-- A probe oracle always failing. -/
def probeErr : String → ProbeOutcome :=
  fun _ => .err "boom"

/-- C5: the escaping of source line 214 is applied to a value passed as
its own argv element, so the text after `key=` in the composed command
— the value the remux tool stores and `read_metadata` later returns —
is the escaped string, with literal backslashes, not the
caller-supplied value: the verbatim round-trip fails for every value
containing a double quote or a newline.  Evaluated at the failing
inputs `say "hi"` and `line1\nline2`. -/
theorem c5_escaping_not_verbatim :
    cmdTagLookup "title" (buildCmd "in.mp4" "out.mp4" [("title", "say \"hi\"")])
        = some "say \\\"hi\\\"" ∧
    ("say \\\"hi\\\"" : String) ≠ "say \"hi\"" ∧
    escapeValue "line1\nline2" = "line1\\nline2" ∧
    ("line1\\nline2" : String) ≠ "line1\nline2" :=
  ⟨by decide, by decide, by decide, by decide⟩

/-- C6 counterexample: `process_batch` performs no validation —
called with zero input paths it completes normally and returns the
empty result collection with the statistics untouched, and called with
zero metadata entries it completes normally with one result per input;
it does not fail outright in either case. -/
theorem c6_counterexample :
    process_batch execFail durZ [] [("title", "T")] none "_metadata" [] fsEmpty {}
      = ([], fsEmpty, {}) ∧
    ((process_batch execOk durZ ["a.mp4"] [] none "_metadata" [0] fsA {}).1).length = 1 :=
  ⟨rfl, rfl⟩

/-- C6 amended: `process_batch` itself never rejects an empty input
list or an empty metadata map — with zero inputs it completes normally
returning the empty collection and leaving filesystem and statistics
unchanged, and with zero metadata entries it completes normally with
one result per input; the rejection of these caller-contract
violations lives only in the out-of-scope CLI and interactive
layers. -/
theorem c6_no_validation (exec : List String → ToolOutcome) (dur : String → Rat)
    (metadata : List (String × String)) (output_dir : Option String) (sfx : String)
    (fs : FS) (stats : ProcessingStats) :
    process_batch exec dur [] metadata output_dir sfx [] fs stats = ([], fs, stats) ∧
    ∀ (video_files : List String) (perm : List Nat),
      perm.Perm (List.range video_files.length) →
      ((process_batch exec dur video_files [] output_dir sfx perm fs stats).1).length
        = video_files.length :=
  ⟨rfl, fun vfs perm hperm =>
    process_batch_length exec dur vfs [] output_dir sfx perm fs stats hperm⟩

/-- Witness for the amended C6 at concrete arguments. -/
theorem c6_witness :
    process_batch execFail durZ [] [("x", "y")] none "_m" [] fsEmpty {} = ([], fsEmpty, {}) ∧
    ((process_batch execFail durZ ["a.mp4"] [] none "_m" [0] fsEmpty {}).1).length = 1 :=
  ⟨(c6_no_validation execFail durZ [("x", "y")] none "_m" fsEmpty {}).1,
   (c6_no_validation execFail durZ [("x", "y")] none "_m" fsEmpty {}).2 ["a.mp4"] [0]
     (by decide)⟩

/-- C7: the task-preparation loop pairs every input, in order, with the
deterministically derived output path — `output_dir / (stem + suffix +
extension)` when an output directory is given, else
`input_parent / (stem + suffix + extension)`, exactly the formula of
the spec — and when an output directory is given it issues a
`mkdir(parents=True, exist_ok=True)` on the parent of each derived
output path (the normalized output directory).  Derivation is a pure
function of the arguments, hence reproducible. -/
theorem c7_output_path_derivation (video_files : List String)
    (output_dir : Option String) (sfx : String) (fs : FS) :
    (prepTasks output_dir sfx video_files fs).1
        = video_files.map (fun i => (i, specOutputPath output_dir sfx i)) ∧
    (∀ i, derivedOutput output_dir sfx i = specOutputPath output_dir sfx i) ∧
    (∀ d, output_dir = some d → ∀ i ∈ video_files,
      pparent (specOutputPath (some d) sfx i)
        ∈ (prepTasks output_dir sfx video_files fs).2.mkdirs) := by
  refine ⟨?_, fun i => derivedOutput_eq_spec output_dir sfx i, ?_⟩
  · rw [prepTasks_fst]
    have h : (fun i => (i, derivedOutput output_dir sfx i))
        = fun i => (i, specOutputPath output_dir sfx i) := by
      funext i
      rw [derivedOutput_eq_spec]
    rw [h]
  · intro d hd i hi
    subst hd
    rw [← derivedOutput_eq_spec]
    exact prepTasks_mkdirs_mem d sfx video_files fs i hi

/-- Witness for C7 with one input and an output directory. -/
theorem c7_witness :
    (prepTasks (some "out") "_metadata" ["v/a.mp4"] fsEmpty).1
        = [("v/a.mp4", specOutputPath (some "out") "_metadata" "v/a.mp4")] ∧
    pparent (specOutputPath (some "out") "_metadata" "v/a.mp4")
        ∈ (prepTasks (some "out") "_metadata" ["v/a.mp4"] fsEmpty).2.mkdirs :=
  ⟨(c7_output_path_derivation ["v/a.mp4"] (some "out") "_metadata" fsEmpty).1,
   (c7_output_path_derivation ["v/a.mp4"] (some "out") "_metadata" fsEmpty).2.2 "out" rfl
     "v/a.mp4" (by simp)⟩

/-- C8: the remux command is built with the arguments in exactly the
claimed order — input path, preserve-metadata flag, copy-streams flag,
all-threads flag, one `key=value` metadata argument per map entry in
map order with the value pre-escaped, overwrite flag, output path —
and whenever the input exists this is exactly the command the job
runner executes. -/
theorem c8_remux_command_order (fs : FS) (exec : List String → ToolOutcome)
    (dur : String → Rat) (input output : String) (metadata : List (String × String)) :
    buildCmd input output metadata = specRemuxCmd input output metadata ∧
    (fs.present input = true →
      (processSingleVideo fs exec dur input output metadata).2.2
        = [specRemuxCmd input output metadata]) := by
  have hcmd : buildCmd input output metadata = specRemuxCmd input output metadata := by
    simp only [buildCmd, specRemuxCmd]
    rw [foldl_append_flatMap]
    simp [List.append_assoc]
  refine ⟨hcmd, fun h => ?_⟩
  simp only [processSingleVideo, h]
  split
  · split <;> simp [hcmd]
  · next hfalse => exact absurd trivial hfalse

/-- Witness for C8 on an existing input. -/
theorem c8_witness :
    buildCmd "a.mp4" "o.mp4" [("title", "T")] = specRemuxCmd "a.mp4" "o.mp4" [("title", "T")] ∧
    (processSingleVideo fsA execOk durZ "a.mp4" "o.mp4" [("title", "T")]).2.2
      = [specRemuxCmd "a.mp4" "o.mp4" [("title", "T")]] :=
  ⟨(c8_remux_command_order fsA execOk durZ "a.mp4" "o.mp4" [("title", "T")]).1,
   (c8_remux_command_order fsA execOk durZ "a.mp4" "o.mp4" [("title", "T")]).2 (by decide)⟩

/-- C9: `read_metadata` returns the tag map under the format-level tags
section when the probe output carries one, and the empty map whenever
that section is absent or the probe invocation or parse failed; it is
a total function, mirroring the catch-all `except` that never lets an
error reach the caller. -/
theorem c9_read_metadata_lenient (probe : String → ProbeOutcome) (video_file : String) :
    (∀ d t, probe video_file = .ok d → probeTags d = some t →
      read_metadata probe video_file = t) ∧
    (∀ d, probe video_file = .ok d → probeTags d = none →
      read_metadata probe video_file = []) ∧
    (∀ m, probe video_file = .err m → read_metadata probe video_file = []) := by
  refine ⟨?_, ?_, ?_⟩
  · intro d t hp ht
    simp only [read_metadata, hp]
    obtain ⟨fmt⟩ := d
    cases fmt with
    | none => simp [probeTags] at ht
    | some f =>
      obtain ⟨tg⟩ := f
      cases tg with
      | none => simp [probeTags] at ht
      | some t2 =>
        simp only [probeTags, Option.some_bind] at ht
        simpa using ht
  · intro d hp hn
    simp only [read_metadata, hp]
    obtain ⟨fmt⟩ := d
    cases fmt with
    | none => rfl
    | some f =>
      obtain ⟨tg⟩ := f
      cases tg with
      | none => rfl
      | some t2 => simp [probeTags] at hn
  · intro m hp
    simp only [read_metadata, hp]

/-- Witness for C9: a probe with tags and a failing probe. -/
theorem c9_witness :
    read_metadata probeOkTitle "a.mp4" = [("title", "T")] ∧
    read_metadata probeErr "a.mp4" = [] :=
  ⟨(c9_read_metadata_lenient probeOkTitle "a.mp4").1 ⟨some ⟨some [("title", "T")]⟩⟩
      [("title", "T")] rfl rfl,
   (c9_read_metadata_lenient probeErr "a.mp4").2.2 "boom" rfl⟩

/-- C10: the statistics member belongs to the processor instance and is
never reset: across any sequence of `process_batch` calls every field
is only ever increased, and after k calls `total_files` equals its
initial value plus the total number of inputs over all k batches — the
accumulated figure, not that of the last batch alone. -/
theorem c10_stats_accumulate (exec : List String → ToolOutcome) (dur : String → Rat)
    (batches : List BatchCall) (fs : FS) (s : ProcessingStats)
    (hperm : ∀ b ∈ batches, b.perm.Perm (List.range b.inputs.length))
    (hdur : ∀ f, 0 ≤ dur f) :
    (runBatches exec dur batches fs s).2.total_files
        = s.total_files + (batches.map (fun b => b.inputs.length)).sum ∧
    s.successful ≤ (runBatches exec dur batches fs s).2.successful ∧
    s.failed ≤ (runBatches exec dur batches fs s).2.failed ∧
    s.total_size_before ≤ (runBatches exec dur batches fs s).2.total_size_before ∧
    s.total_size_after ≤ (runBatches exec dur batches fs s).2.total_size_after ∧
    s.total_duration ≤ (runBatches exec dur batches fs s).2.total_duration := by
  revert hperm
  induction batches generalizing fs s with
  | nil =>
    intro _
    simp [runBatches]
  | cons b rest ih =>
    intro hperm
    have hb := hperm b (List.mem_cons_self b rest)
    have hrest : ∀ x ∈ rest, x.perm.Perm (List.range x.inputs.length) :=
      fun x hx => hperm x (List.mem_cons_of_mem b hx)
    obtain ⟨m1, m2, m3, m4, m5, m6⟩ :=
      process_batch_stats_mono exec dur b.inputs b.md b.outdir b.sfx b.perm fs s hb hdur
    obtain ⟨e1, _, _, _, _, _⟩ :=
      process_batch_stats exec dur b.inputs b.md b.outdir b.sfx b.perm fs s hb
    obtain ⟨i1, i2, i3, i4, i5, i6⟩ :=
      ih (process_batch exec dur b.inputs b.md b.outdir b.sfx b.perm fs s).2.1
        (process_batch exec dur b.inputs b.md b.outdir b.sfx b.perm fs s).2.2 hrest
    simp only [runBatches, List.map_cons, List.sum_cons]
    refine ⟨by omega, by omega, by omega, by omega, by omega, ?_⟩
    exact le_trans m6 i6

/-- Witness for C10 with one single-input batch. -/
theorem c10_witness :
    (runBatches execFail durZ [batch1] fsEmpty {}).2.total_files
        = ({} : ProcessingStats).total_files
          + (([batch1] : List BatchCall).map (fun b => b.inputs.length)).sum ∧
    ({} : ProcessingStats).successful ≤ (runBatches execFail durZ [batch1] fsEmpty {}).2.successful ∧
    ({} : ProcessingStats).failed ≤ (runBatches execFail durZ [batch1] fsEmpty {}).2.failed ∧
    ({} : ProcessingStats).total_size_before
        ≤ (runBatches execFail durZ [batch1] fsEmpty {}).2.total_size_before ∧
    ({} : ProcessingStats).total_size_after
        ≤ (runBatches execFail durZ [batch1] fsEmpty {}).2.total_size_after ∧
    ({} : ProcessingStats).total_duration
        ≤ (runBatches execFail durZ [batch1] fsEmpty {}).2.total_duration :=
  c10_stats_accumulate execFail durZ [batch1] fsEmpty {}
    (by
      intro b hb
      simp only [List.mem_singleton] at hb
      subst hb
      decide)
    (fun _ => le_refl 0)

end VideoMetadataInjector
